import Mathlib

/-!
Verification of the two data-munging scripts of this repository:
`scripts/extract_batch.py` (BatchExtractor) and `scripts/split_prompts.py`
(ChunkSplitter).  Both read the JSON array stored at `data/prompts.json`;
the first prints a slice of it, the second writes it out in chunks.

The embedding models:
  * JSON values (`Json`) with integer numerals; the `json` library pair
    `json.dumps(v, ensure_ascii=False, indent=2)` (`dumps`) and
    `json.load` (`parseJson`, a recursive-descent parser with an explicit
    fuel that is always sufficient for inputs of the given length);
  * Python list slicing (`pySlice`), `len` (`pyLen`) and `range`
    (`pyrange`), with Python exceptions surfaced through `PyExc`;
  * the ambient world (`Env`): the content of the file system plus the
    possibility of a write failure per path; standard output is the list
    of printed lines.
-/

namespace TopBanana

/-- JSON values as handled by the Python `json` module.  Numerals are
modelled as integers (floating-point literals are outside the scope of
this development); object members keep their textual order. -/
inductive Json : Type where
  | null : Json
  | bool (b : Bool) : Json
  | int (n : Int) : Json
  | str (s : String) : Json
  | arr (elems : List Json) : Json
  | obj (membs : List (String × Json)) : Json

/-! ### The serializer: `json.dumps(v, ensure_ascii=False, indent=2)` -/

/-- `n` spaces: the indentation prefix used by `json.dumps(indent=2)`. -/
def spaces : Nat → List Char
  | 0 => []
  | n + 1 => ' ' :: spaces n

/-- Decimal digit character (`chr(48 + n)` for `n < 10`). -/
def digitChar (n : Nat) : Char := Char.ofNat (48 + n)

/-- Lower-case hexadecimal digit, as in the `\u%04x` formatting that the
json encoder applies to control characters. -/
def hexDigitChar (n : Nat) : Char :=
  if n < 10 then Char.ofNat (48 + n) else Char.ofNat (87 + n)

/-- Fuelled helper for the decimal expansion of a natural number.  The
fuel only serves to make the recursion structural; `natDigits` always
supplies enough of it. -/
def natDigitsAux : Nat → Nat → List Char
  | 0, _ => []
  | fuel + 1, n =>
    if n < 10 then [digitChar n] else natDigitsAux fuel (n / 10) ++ [digitChar (n % 10)]

/-- Decimal representation of a natural number, most significant digit
first: the digits of `repr(n)` for a Python int `n ≥ 0`. -/
def natDigits (n : Nat) : List Char := natDigitsAux (n + 1) n

/-- `repr(n)` / `str(n)` for a Python int `n ≥ 0`, as a string. -/
def natRepr (n : Nat) : String := ⟨natDigits n⟩

/-- `repr(n)` for a Python int, as a character list. -/
def intRepr (n : Int) : List Char :=
  if n < 0 then '-' :: natDigits n.natAbs else natDigits n.toNat

/-- Expansion of one character inside a JSON string literal, following
`json.dumps` with `ensure_ascii=False`: only the quote, the backslash and
control characters are escaped; control characters without a short escape
use `\u00XX`. -/
def escChar (c : Char) : List Char :=
  if c = '"' then ['\\', '"']
  else if c = '\\' then ['\\', '\\']
  else if c = '\n' then ['\\', 'n']
  else if c = '\t' then ['\\', 't']
  else if c = '\r' then ['\\', 'r']
  else if c = Char.ofNat 8 then ['\\', 'b']
  else if c = Char.ofNat 12 then ['\\', 'f']
  else if c.toNat < 32 then
    ['\\', 'u', '0', '0', hexDigitChar (c.toNat / 16), hexDigitChar (c.toNat % 16)]
  else [c]

/-- The JSON string literal for `s` (used both for string values and for
object keys). -/
def dumpKey (s : String) : List Char := '"' :: (s.data.map escChar).flatten ++ ['"']

mutual
/-- `json.dumps(v, ensure_ascii=False, indent=2)` when `v` sits at
indentation level `ind`, as a character list.  A nonempty array is emitted
as `[`, a newline, the items each preceded by `ind + 2` spaces and
separated by `",\n"`, then a newline, `ind` spaces, and `]`; objects
likewise with `"key": value` members. -/
def dumpVal : Nat → Json → List Char
  | _, .null => ['n', 'u', 'l', 'l']
  | _, .bool true => ['t', 'r', 'u', 'e']
  | _, .bool false => ['f', 'a', 'l', 's', 'e']
  | _, .int n => intRepr n
  | _, .str s => dumpKey s
  | _, .arr [] => ['[', ']']
  | ind, .arr (x :: xs) => '[' :: '\n' :: (spaces (ind + 2) ++ dumpItems ind x xs)
  | _, .obj [] => ['{', '}']
  | ind, .obj (kv :: kvs) => '{' :: '\n' :: (spaces (ind + 2) ++ dumpMembs ind kv kvs)
termination_by _ v => sizeOf v
/-- The items of a nonempty array, from the first item up to and including
the closing bracket. -/
def dumpItems : Nat → Json → List Json → List Char
  | ind, x, [] => dumpVal (ind + 2) x ++ '\n' :: (spaces ind ++ [']'])
  | ind, x, y :: ys =>
    dumpVal (ind + 2) x ++ ',' :: '\n' :: (spaces (ind + 2) ++ dumpItems ind y ys)
termination_by _ x xs => 1 + sizeOf x + sizeOf xs
/-- The members of a nonempty object, from the first member up to and
including the closing brace. -/
def dumpMembs : Nat → (String × Json) → List (String × Json) → List Char
  | ind, (k, v), [] => dumpKey k ++ ':' :: ' ' :: (dumpVal (ind + 2) v ++ '\n' :: (spaces ind ++ ['}']))
  | ind, (k, v), kv :: kvs =>
    dumpKey k ++ ':' :: ' ' :: (dumpVal (ind + 2) v ++ ',' :: '\n' :: (spaces (ind + 2) ++ dumpMembs ind kv kvs))
termination_by _ kv kvs => 1 + sizeOf kv + sizeOf kvs
end

/-- `json.dumps(v, ensure_ascii=False, indent=2)`. -/
def dumps (v : Json) : String := ⟨dumpVal 0 v⟩

/-! ### The parser: `json.load` / `json.loads` -/

/-- Skip JSON whitespace. -/
def skipWs : List Char → List Char
  | [] => []
  | c :: r => if c = ' ' ∨ c = '\n' ∨ c = '\t' ∨ c = '\r' then skipWs r else c :: r

/-- Value of a hexadecimal digit. -/
def hexVal (c : Char) : Option Nat :=
  if 48 ≤ c.toNat ∧ c.toNat ≤ 57 then some (c.toNat - 48)
  else if 97 ≤ c.toNat ∧ c.toNat ≤ 102 then some (c.toNat - 87)
  else if 65 ≤ c.toNat ∧ c.toNat ≤ 70 then some (c.toNat - 55)
  else none

/-- The character denoted by a short escape `\c` in a JSON string. -/
def unescChar (c : Char) : Option Char :=
  if c = '"' then some '"'
  else if c = '\\' then some '\\'
  else if c = '/' then some '/'
  else if c = 'b' then some (Char.ofNat 8)
  else if c = 'f' then some (Char.ofNat 12)
  else if c = 'n' then some '\n'
  else if c = 'r' then some '\r'
  else if c = 't' then some '\t'
  else none

/-- Parse the body of a JSON string literal (the opening quote already
consumed), returning the decoded characters and the input following the
closing quote.  As in Python (strict mode), an unescaped control
character is rejected. -/
def parseStringBody : List Char → Option (List Char × List Char)
  | [] => none
  | c :: r =>
    if c = '"' then some ([], r)
    else if c = '\\' then
      match r with
      | [] => none
      | e :: r2 =>
        if e = 'u' then
          match r2 with
          | h1 :: h2 :: h3 :: h4 :: r3 =>
            match hexVal h1, hexVal h2, hexVal h3, hexVal h4 with
            | some a, some b, some c2, some d =>
              (parseStringBody r3).map
                (fun p => (Char.ofNat (((a * 16 + b) * 16 + c2) * 16 + d) :: p.1, p.2))
            | _, _, _, _ => none
          | _ => none
        else
          match unescChar e with
          | some u => (parseStringBody r2).map (fun p => (u :: p.1, p.2))
          | none => none
    else if c.toNat < 32 then none
    else (parseStringBody r).map (fun p => (c :: p.1, p.2))

/-- Decimal digit test. -/
def isDigitChar (c : Char) : Bool := 48 ≤ c.toNat && c.toNat ≤ 57

/-- Split the longest prefix of decimal digits off the input. -/
def takeDigits : List Char → List Char × List Char
  | [] => ([], [])
  | c :: r =>
    if isDigitChar c then
      ((takeDigits r).1.cons c, (takeDigits r).2)
    else ([], c :: r)

/-- Numeric value of a digit list, most significant digit first. -/
def digitsVal (ds : List Char) : Nat := ds.foldl (fun a c => 10 * a + (c.toNat - 48)) 0

/-- Parse a JSON integer numeral: an optional minus sign followed by at
least one digit. -/
def parseNumber : List Char → Option (Int × List Char)
  | [] => none
  | c :: r =>
    if c = '-' then
      match takeDigits r with
      | ([], _) => none
      | (ds, rest) => some (-(digitsVal ds : Int), rest)
    else
      match takeDigits (c :: r) with
      | ([], _) => none
      | (ds, rest) => some ((digitsVal ds : Int), rest)

mutual
/-- Recursive-descent JSON value parser, structurally recursive on an
explicit fuel.  One unit of fuel is spent per nesting step, and at least
one input character is consumed per two units, so the fuel chosen by
`parseJson` is always sufficient. -/
def parseValue : Nat → List Char → Option (Json × List Char)
  | 0, _ => none
  | fuel + 1, s =>
    match skipWs s with
    | [] => none
    | c :: r =>
      if c = 'n' then
        match r with
        | 'u' :: 'l' :: 'l' :: r2 => some (.null, r2)
        | _ => none
      else if c = 't' then
        match r with
        | 'r' :: 'u' :: 'e' :: r2 => some (.bool true, r2)
        | _ => none
      else if c = 'f' then
        match r with
        | 'a' :: 'l' :: 's' :: 'e' :: r2 => some (.bool false, r2)
        | _ => none
      else if c = '"' then
        (parseStringBody r).map (fun p => (Json.str ⟨p.1⟩, p.2))
      else if c = '[' then
        let r2 := skipWs r
        if r2.head? = some ']' then some (.arr [], r2.tail)
        else (parseElems fuel r2).map (fun p => (Json.arr p.1, p.2))
      else if c = '{' then
        let r2 := skipWs r
        if r2.head? = some '}' then some (.obj [], r2.tail)
        else (parseMembs fuel r2).map (fun p => (Json.obj p.1, p.2))
      else
        (parseNumber (c :: r)).map (fun p => (Json.int p.1, p.2))
/-- Parse the items of a nonempty array, up to and including the closing
bracket. -/
def parseElems : Nat → List Char → Option (List Json × List Char)
  | 0, _ => none
  | fuel + 1, s =>
    match parseValue fuel s with
    | none => none
    | some (v, r) =>
      match skipWs r with
      | [] => none
      | c :: r2 =>
        if c = ',' then (parseElems fuel r2).map (fun p => (v :: p.1, p.2))
        else if c = ']' then some ([v], r2)
        else none
/-- Parse the members of a nonempty object, up to and including the
closing brace. -/
def parseMembs : Nat → List Char → Option (List (String × Json) × List Char)
  | 0, _ => none
  | fuel + 1, s =>
    match skipWs s with
    | [] => none
    | c :: r =>
      if c = '"' then
        match parseStringBody r with
        | none => none
        | some (k, r2) =>
          match skipWs r2 with
          | [] => none
          | c2 :: r3 =>
            if c2 = ':' then
              match parseValue fuel r3 with
              | none => none
              | some (v, r4) =>
                match skipWs r4 with
                | [] => none
                | c3 :: r5 =>
                  if c3 = ',' then (parseMembs fuel r5).map (fun p => ((⟨k⟩, v) :: p.1, p.2))
                  else if c3 = '}' then some ([(⟨k⟩, v)], r5)
                  else none
            else none
      else none
end

/-- `json.loads(s)`: parse a complete JSON document; only whitespace may
follow the value.  `none` models a raised `json.JSONDecodeError`. -/
def parseJson (s : String) : Option Json :=
  match parseValue (2 * s.length + 2) s.data with
  | some (v, r) => if skipWs r = [] then some v else none
  | none => none

/-! ### Proof-side measures and predicates -/

/-- Every character of the list is JSON whitespace. -/
def wsOnly (l : List Char) : Prop := ∀ c ∈ l, c = ' ' ∨ c = '\n' ∨ c = '\t' ∨ c = '\r'

/-- A continuation that may legally follow a printed value inside a
`dumps` output: nothing, or a comma or newline first. -/
def goodRest : List Char → Prop
  | [] => True
  | c :: _ => c = ',' ∨ c = '\n'

mutual
/-- Fuel sufficient for `parseValue` to parse the dump of `v`. -/
def jfuel : Json → Nat
  | .null => 1
  | .bool _ => 1
  | .int _ => 1
  | .str _ => 1
  | .arr [] => 1
  | .arr (x :: xs) => 1 + jfuelItems x xs
  | .obj [] => 1
  | .obj (kv :: kvs) => 1 + jfuelMembs kv kvs
termination_by v => sizeOf v
/-- Fuel sufficient for `parseElems` on the items of a nonempty array. -/
def jfuelItems : Json → List Json → Nat
  | x, [] => 1 + jfuel x
  | x, y :: ys => 1 + jfuel x + jfuelItems y ys
termination_by x xs => 1 + sizeOf x + sizeOf xs
/-- Fuel sufficient for `parseMembs` on the members of a nonempty object. -/
def jfuelMembs : (String × Json) → List (String × Json) → Nat
  | (_, v), [] => 1 + jfuel v
  | (_, v), kv :: kvs => 1 + jfuel v + jfuelMembs kv kvs
termination_by kv kvs => 1 + sizeOf kv + sizeOf kvs
end

/-! ### Python semantics: exceptions, `len`, slicing, `range` -/

/-- The Python exceptions that the two scripts can raise, each carrying
the text that `str(e)` would produce.  `fileNotFound` stands for the
`FileNotFoundError` of a failed `open`, `jsonDecodeError` for
`json.JSONDecodeError`, `typeError` for `TypeError`, and `osError` for
any `OSError` raised while creating or writing an output file. -/
inductive PyExc : Type where
  | fileNotFound (m : String) : PyExc
  | jsonDecodeError (m : String) : PyExc
  | typeError (m : String) : PyExc
  | osError (m : String) : PyExc
deriving DecidableEq

/-- `str(e)`: the diagnostic text of an exception. -/
def PyExc.msg : PyExc → String
  | .fileNotFound m => m
  | .jsonDecodeError m => m
  | .typeError m => m
  | .osError m => m

/-- Clamp one slice endpoint to `[0, len]` the way Python `slice.indices`
does: a negative index counts from the end. -/
def pyIndex (len : Nat) (i : Int) : Nat :=
  if i < 0 then ((len : Int) + i).toNat else min i.toNat len

/-- Python list slicing `xs[i:j]` (step 1, both endpoints given). -/
def pySlice (xs : List α) (i j : Int) : List α :=
  (xs.take (pyIndex xs.length j)).drop (pyIndex xs.length i)

/-- Python `v[i:j]` on a JSON value: defined for lists and strings,
a `TypeError` otherwise (what `data[start:start+count]` raises when the
decoded document is not sliceable). -/
def pySliceJson : Json → Int → Int → Except PyExc Json
  | .arr xs, i, j => .ok (.arr (pySlice xs i j))
  | .str s, i, j => .ok (.str ⟨pySlice s.data i j⟩)
  | .obj _, _, _ => .error (.typeError "unhashable type: slice")
  | .null, _, _ => .error (.typeError "NoneType object is not subscriptable")
  | .bool _, _, _ => .error (.typeError "bool object is not subscriptable")
  | .int _, _, _ => .error (.typeError "int object is not subscriptable")

/-- Python `len` on a JSON value: defined for lists, strings and dicts,
a `TypeError` otherwise. -/
def pyLen : Json → Except PyExc Nat
  | .arr xs => .ok xs.length
  | .str s => .ok s.length
  | .obj kvs => .ok kvs.length
  | .null => .error (.typeError "object of type NoneType has no len")
  | .bool _ => .error (.typeError "object of type bool has no len")
  | .int _ => .error (.typeError "object of type int has no len")

/-- Fuelled loop behind `range(i, stop, step)` for a positive step: emit
`i` while `i < stop`, then advance by `step`.  `pyrange` supplies fuel
`stop`, which is sufficient because every iteration advances `i` by at
least one. -/
def rangeGo : Nat → Nat → Nat → Nat → List Nat
  | 0, _, _, _ => []
  | fuel + 1, i, stop, step => if i < stop then i :: rangeGo fuel (i + step) stop step else []

/-- Python `range(0, stop, step)` for `step > 0` (the only use in the
source has `step = chunk_size = 50`; `step = 0` would raise `ValueError`
in Python and is never reached). -/
def pyrange (stop step : Nat) : List Nat :=
  if step = 0 then [] else rangeGo stop 0 stop step

/-- A Python list comprehension whose body may raise: evaluate `f` on the
elements left to right, aborting at the first exception. -/
def listComp (f : α → Except PyExc β) : List α → Except PyExc (List β)
  | [] => .ok []
  | i :: l => do
    let c ← f i
    let cs ← listComp f l
    pure (c :: cs)

/-- Line 13 of `scripts/split_prompts.py`:
`chunks = [data[i:i + chunk_size] for i in range(0, len(data), chunk_size)]`,
for a `data` that is a plain list. -/
def chunks (data : List α) (chunk_size : Nat) : List (List α) :=
  (pyrange data.length chunk_size).map
    (fun (i : Nat) => pySlice data (i : Int) ((i : Int) + (chunk_size : Int)))

/-! ### The ambient world -/

/-- The parts of the environment the scripts interact with: the file
system (contents by path; `none` means the path does not exist) and, per
path, whether opening that path for writing fails (`some m` models a
raised `OSError` with text `m`, e.g. a missing parent directory or a
permission problem). -/
structure Env : Type where
  fs : String → Option String
  writeErr : String → Option String

/-- `open('data/prompts.json', 'r', encoding='utf-8')` followed by
`json.load(f)`: the shared input contract of both scripts. -/
def readPrompts (env : Env) : Except PyExc Json :=
  match env.fs "data/prompts.json" with
  | none => .error (.fileNotFound "[Errno 2] No such file or directory: data/prompts.json")
  | some content =>
    match parseJson content with
    | none => .error (.jsonDecodeError "Expecting value")
    | some v => .ok v

/-! ### BatchExtractor: `scripts/extract_batch.py` -/

/-- The body of the `try:` block of `extract_batch` (lines 5-12): load
the dataset, slice it, and serialize the slice; the returned string is
the argument of the final `print`. -/
def extract_body (env : Env) (start count : Int) : Except PyExc String := do
  let data ← readPrompts env
  let batch ← pySliceJson data start (start + count)
  pure (dumps batch)

/-- `extract_batch(start, count)` (lines 4-15): run the body and catch
every exception, printing `f"Error: {e}"` instead.  The result is the
final environment (unchanged: the script only reads) paired with the
lines written to standard output. -/
def extract_batch (env : Env) (start count : Int) : Env × List String :=
  (env,
    [match extract_body env start count with
     | .ok s => s
     | .error e => "Error: " ++ e.msg])

/-! ### ChunkSplitter: `scripts/split_prompts.py` -/

/-- The outcome of running a module-level script: the final environment,
the lines printed to standard output, and `some e` when the run was
aborted by an uncaught exception `e` (the partial output and partial file
writes made before the abort persist). -/
structure RunResult : Type where
  env : Env
  out : List String
  exc : Option PyExc

/-- `f'data/temp_chunk_{i}.json'` (line 16). -/
def chunkFileName (i : Nat) : String := "data/temp_chunk_" ++ natRepr i ++ ".json"

/-- The `for i, chunk in enumerate(chunks):` loop of lines 15-19,
started at index `i`: open each chunk file for writing (an `OSError`
aborts the run), write the chunk as indented JSON, and print the
progress line.  No exception is caught. -/
def writeChunks (env : Env) (i : Nat) : List Json → RunResult
  | [] => ⟨env, [], none⟩
  | c :: cs =>
    match env.writeErr (chunkFileName i) with
    | some m => ⟨env, [], some (.osError m)⟩
    | none =>
      match pyLen c with
      | .error e =>
        ⟨{ env with fs := fun p => if p = chunkFileName i then some (dumps c) else env.fs p },
          [], some e⟩
      | .ok n =>
        ⟨(writeChunks
            { env with fs := fun p => if p = chunkFileName i then some (dumps c) else env.fs p }
            (i + 1) cs).env,
          ("Created " ++ chunkFileName i ++ " with " ++ natRepr n ++ " items")
            :: (writeChunks
              { env with fs := fun p => if p = chunkFileName i then some (dumps c) else env.fs p }
              (i + 1) cs).out,
          (writeChunks
            { env with fs := fun p => if p = chunkFileName i then some (dumps c) else env.fs p }
            (i + 1) cs).exc⟩

/-- The module-level code of `scripts/split_prompts.py` (lines 1-19) with
the chunk size as a parameter: read and decode `data/prompts.json`, print
the total count, build the list of chunks, and write them out in order.
No exception is caught; an uncaught exception aborts the run with the
output and file writes made so far. -/
def split_prompts_gen (env : Env) (chunk_size : Nat) : RunResult :=
  match readPrompts env with
  | .error e => ⟨env, [], some e⟩
  | .ok data =>
    match pyLen data with
    | .error e => ⟨env, [], some e⟩
    | .ok n =>
      let line0 := "Total items: " ++ natRepr n
      match listComp (fun (i : Nat) => pySliceJson data (i : Int) ((i : Int) + (chunk_size : Int)))
          (pyrange n chunk_size) with
      | .error e => ⟨env, [line0], some e⟩
      | .ok cs =>
        let r := writeChunks env 0 cs
        ⟨r.env, line0 :: r.out, r.exc⟩

/-- `scripts/split_prompts.py` as shipped: `chunk_size = 50` (line 12). -/
def split_prompts (env : Env) : RunResult := split_prompts_gen env 50

/-! ## Lemmas about digits and numerals -/

theorem char_toNat_ofNat : ∀ n, n < 128 → (Char.ofNat n).toNat = n := by decide

theorem isDigitChar_iff {c : Char} : isDigitChar c = true ↔ 48 ≤ c.toNat ∧ c.toNat ≤ 57 := by
  simp [isDigitChar]

theorem digitChar_toNat {n : Nat} (h : n < 10) : (digitChar n).toNat = 48 + n := by
  have := char_toNat_ofNat (48 + n) (by omega)
  simpa [digitChar] using this

theorem digitChar_isDigit {n : Nat} (h : n < 10) : isDigitChar (digitChar n) = true := by
  rw [isDigitChar_iff, digitChar_toNat h]
  omega

theorem natDigitsAux_ne_nil : ∀ fuel n, n < fuel → natDigitsAux fuel n ≠ [] := by
  intro fuel
  induction fuel with
  | zero => omega
  | succ fuel ih =>
    intro n hn
    by_cases h10 : n < 10
    · simp [natDigitsAux, h10]
    · simp only [natDigitsAux, if_neg h10]
      intro hcontra
      rcases List.append_eq_nil.mp hcontra with ⟨_, h2⟩
      exact List.cons_ne_nil _ _ h2

theorem natDigitsAux_digits :
    ∀ fuel n, n < fuel → ∀ c ∈ natDigitsAux fuel n, isDigitChar c = true := by
  intro fuel
  induction fuel with
  | zero => omega
  | succ fuel ih =>
    intro n hn c hc
    by_cases h10 : n < 10
    · simp [natDigitsAux, h10] at hc
      subst hc
      exact digitChar_isDigit h10
    · simp only [natDigitsAux, if_neg h10] at hc
      rcases List.mem_append.mp hc with h | h
      · exact ih (n / 10) (by have := Nat.div_lt_self (by omega : 0 < n) (by omega : 1 < 10); omega) c h
      · simp at h
        subst h
        exact digitChar_isDigit (Nat.mod_lt _ (by omega))

theorem digitsVal_append_digit (ds : List Char) (c : Char) :
    digitsVal (ds ++ [c]) = 10 * digitsVal ds + (c.toNat - 48) := by
  simp [digitsVal, List.foldl_append]

theorem digitsVal_natDigitsAux : ∀ fuel n, n < fuel → digitsVal (natDigitsAux fuel n) = n := by
  intro fuel
  induction fuel with
  | zero => omega
  | succ fuel ih =>
    intro n hn
    by_cases h10 : n < 10
    · simp [natDigitsAux, h10, digitsVal, digitChar_toNat h10]
    · rw [natDigitsAux, if_neg h10, digitsVal_append_digit,
        ih (n / 10) (by have := Nat.div_lt_self (by omega : 0 < n) (by omega : 1 < 10); omega),
        digitChar_toNat (Nat.mod_lt _ (by omega))]
      omega

theorem natDigits_ne_nil (n : Nat) : natDigits n ≠ [] :=
  natDigitsAux_ne_nil (n + 1) n (by omega)

theorem natDigits_digits (n : Nat) : ∀ c ∈ natDigits n, isDigitChar c = true :=
  natDigitsAux_digits (n + 1) n (by omega)

theorem digitsVal_natDigits (n : Nat) : digitsVal (natDigits n) = n :=
  digitsVal_natDigitsAux (n + 1) n (by omega)

theorem natRepr_injective {m n : Nat} (h : natRepr m = natRepr n) : m = n := by
  have hd : natDigits m = natDigits n := congrArg String.data h
  have := digitsVal_natDigits m
  rw [hd, digitsVal_natDigits] at this
  omega

theorem takeDigits_append (ds rest : List Char) (hds : ∀ c ∈ ds, isDigitChar c = true)
    (hrest : ∀ c, rest.head? = some c → isDigitChar c = false) :
    takeDigits (ds ++ rest) = (ds, rest) := by
  induction ds with
  | nil =>
    cases rest with
    | nil => rfl
    | cons c r =>
      have := hrest c rfl
      simp [takeDigits, this]
  | cons d ds ih =>
    have hd : isDigitChar d = true := hds d (by simp)
    have ihr := ih (fun c hc => hds c (by simp [hc]))
    simp [takeDigits, hd, ihr]

theorem parseNumber_intRepr (n : Int) (rest : List Char)
    (hrest : ∀ c, rest.head? = some c → isDigitChar c = false) :
    parseNumber (intRepr n ++ rest) = some (n, rest) := by
  by_cases hn : n < 0
  · rw [intRepr, if_pos hn]
    have htd := takeDigits_append (natDigits n.natAbs) rest (natDigits_digits _) hrest
    obtain ⟨d, ds, hcons⟩ := List.exists_cons_of_ne_nil (natDigits_ne_nil n.natAbs)
    rw [List.cons_append, parseNumber, if_pos rfl, htd, hcons]
    have hval : digitsVal (d :: ds) = n.natAbs := by rw [← hcons]; exact digitsVal_natDigits _
    simp only [hval]
    congr 1
    congr 1
    omega
  · rw [intRepr, if_neg hn]
    have htd := takeDigits_append (natDigits n.toNat) rest (natDigits_digits _) hrest
    obtain ⟨d, ds, hcons⟩ := List.exists_cons_of_ne_nil (natDigits_ne_nil n.toNat)
    have hdne : d ≠ '-' := by
      intro hcontra
      have := natDigits_digits n.toNat d (by rw [hcons]; simp)
      rw [hcontra] at this
      exact absurd this (by decide)
    rw [hcons] at htd ⊢
    rw [List.cons_append, parseNumber, if_neg hdne, ← List.cons_append, htd]
    have hval : digitsVal (d :: ds) = n.toNat := by rw [← hcons]; exact digitsVal_natDigits _
    simp only [hval]
    congr 1
    congr 1
    omega

/-! ## Lemmas about slicing -/

theorem take_min_length (l : List α) (n : Nat) : l.take (min n l.length) = l.take n := by
  rcases le_or_lt n l.length with h | h
  · rw [Nat.min_eq_left h]
  · rw [Nat.min_eq_right (by omega), List.take_of_length_le (le_refl _),
      List.take_of_length_le (by omega)]

theorem slice_take_drop (xs : List α) (a b : Nat) :
    (xs.take (min (a + b) xs.length)).drop (min a xs.length) = (xs.drop a).take b := by
  rcases le_or_lt a xs.length with h | h
  · rw [Nat.min_eq_left h, take_min_length, List.drop_take]
    congr 1
    omega
  · rw [Nat.min_eq_right (by omega),
      List.drop_eq_nil_of_le (by rw [List.length_take]; omega),
      List.drop_eq_nil_of_le (by omega : xs.length ≤ a)]
    simp

theorem pySlice_of_nonneg (xs : List α) (s c : Int) (hs : 0 ≤ s) (hc : 0 ≤ c) :
    pySlice xs s (s + c) = (xs.drop s.toNat).take c.toNat := by
  rw [pySlice, pyIndex, pyIndex, if_neg (by omega), if_neg (by omega)]
  have h : (s + c).toNat = s.toNat + c.toNat := by omega
  rw [h]
  exact slice_take_drop xs s.toNat c.toNat

theorem pySlice_natCast (xs : List α) (i k : Nat) :
    pySlice xs (i : Int) ((i : Int) + (k : Int)) = (xs.drop i).take k := by
  have h := pySlice_of_nonneg xs (i : Int) (k : Int) (by omega) (by omega)
  simpa using h

theorem pySlice_empty_of_ge (xs : List α) (s c : Int) (hs : 0 ≤ s) (hc : 0 ≤ c)
    (h : (xs.length : Int) ≤ s) : pySlice xs s (s + c) = [] := by
  rw [pySlice_of_nonneg xs s c hs hc, List.drop_eq_nil_of_le (by omega)]
  simp

/-! ## Lemmas about `range` and `chunks` -/

theorem rangeGo_congr_fuel :
    ∀ f1 : Nat, ∀ f2 i stop step : Nat, 0 < step → stop - i ≤ f1 → stop - i ≤ f2 →
      rangeGo f1 i stop step = rangeGo f2 i stop step := by
  intro f1
  induction f1 with
  | zero =>
    intro f2 i stop step hstep h1 h2
    cases f2 with
    | zero => rfl
    | succ f2 => simp [rangeGo, show ¬(i < stop) from by omega]
  | succ f1 ih =>
    intro f2 i stop step hstep h1 h2
    cases f2 with
    | zero => simp [rangeGo, show ¬(i < stop) from by omega]
    | succ f2 =>
      simp only [rangeGo]
      by_cases hi : i < stop
      · rw [if_pos hi, if_pos hi, ih f2 (i + step) stop step hstep (by omega) (by omega)]
      · rw [if_neg hi, if_neg hi]

theorem rangeGo_shift :
    ∀ fuel i stop k : Nat,
      rangeGo fuel (i + k) stop k = (rangeGo fuel i (stop - k) k).map (· + k) := by
  intro fuel
  induction fuel with
  | zero => intro i stop k; rfl
  | succ fuel ih =>
    intro i stop k
    simp only [rangeGo]
    by_cases hi : i + k < stop
    · rw [if_pos hi, if_pos (by omega), List.map_cons, ← ih (i + k) stop k]
    · rw [if_neg hi, if_neg (by omega), List.map_nil]

theorem chunks_nil (k : Nat) : chunks ([] : List α) k = [] := by
  by_cases hk : k = 0 <;> simp [chunks, pyrange, hk, rangeGo]

theorem chunks_cons (xs : List α) (k : Nat) (hk : 0 < k) (hne : xs ≠ []) :
    chunks xs k = xs.take k :: chunks (xs.drop k) k := by
  have hn : 0 < xs.length := List.length_pos.mpr hne
  simp only [chunks, pyrange, if_neg (by omega : ¬k = 0), List.length_drop]
  rw [show xs.length = (xs.length - 1) + 1 from by omega]
  simp only [rangeGo, if_pos (by omega : 0 < xs.length - 1 + 1), List.map_cons, Nat.zero_add]
  congr 1
  · have h := pySlice_natCast xs 0 k
    simpa using h
  · rw [rangeGo_congr_fuel (xs.length - 1) (xs.length - 1 + 1 - k) k (xs.length - 1 + 1) k hk
      (by omega) (by omega)]
    have hsh := rangeGo_shift (xs.length - 1 + 1 - k) 0 (xs.length - 1 + 1) k
    simp only [Nat.zero_add] at hsh
    rw [hsh, List.map_map]
    congr 1
    funext j
    show pySlice xs ((j + k : Nat) : Int) (((j + k : Nat) : Int) + (k : Int))
      = pySlice (xs.drop k) (j : Int) ((j : Int) + (k : Int))
    rw [pySlice_natCast, pySlice_natCast, List.drop_drop]
    congr 2
    omega

theorem ceil_div_step (n k : Nat) (hk : 0 < k) (hn : 0 < n) :
    (n + k - 1) / k = 1 + (n - k + k - 1) / k := by
  rcases le_or_lt n k with h | h
  · have h1 : (0 + k - 1) / k = 0 := Nat.div_eq_of_lt (by omega)
    have h2 : (n + k - 1) / k = 1 := Nat.div_eq_of_lt_le (by omega) (by omega)
    rw [Nat.sub_eq_zero_of_le h, h1, h2]
  · rw [show n + k - 1 = (n - 1) + k from by omega, show n - k + k - 1 = (n - 1) from by omega,
      Nat.add_div_right _ hk]
    omega

theorem chunks_flatten (xs : List α) (k : Nat) (hk : 0 < k) : (chunks xs k).flatten = xs := by
  induction' hn : xs.length using Nat.strong_induction_on with n ih generalizing xs
  by_cases hxs : xs = []
  · subst hxs
    simp [chunks_nil]
  · have hl : 0 < xs.length := List.length_pos.mpr hxs
    rw [chunks_cons xs k hk hxs, List.flatten_cons,
      ih ((xs.drop k).length) (by rw [List.length_drop]; omega) (xs.drop k) rfl,
      List.take_append_drop]

theorem chunks_length (xs : List α) (k : Nat) (hk : 0 < k) :
    (chunks xs k).length = (xs.length + k - 1) / k := by
  induction' hn : xs.length using Nat.strong_induction_on with n ih generalizing xs
  subst hn
  by_cases hxs : xs = []
  · subst hxs
    rw [chunks_nil, List.length_nil, List.length_nil, Nat.zero_add, Nat.div_eq_of_lt (by omega)]
  · have hl : 0 < xs.length := List.length_pos.mpr hxs
    rw [chunks_cons xs k hk hxs, List.length_cons,
      ih ((xs.drop k).length) (by rw [List.length_drop]; omega) (xs.drop k) rfl,
      List.length_drop]
    have hstep := ceil_div_step xs.length k hk hl
    omega

theorem chunks_mem (xs : List α) (k : Nat) (hk : 0 < k) :
    ∀ c ∈ chunks xs k, 1 ≤ c.length ∧ c.length ≤ k := by
  induction' hn : xs.length using Nat.strong_induction_on with n ih generalizing xs
  by_cases hxs : xs = []
  · subst hxs
    simp [chunks_nil]
  · have hl : 0 < xs.length := List.length_pos.mpr hxs
    rw [chunks_cons xs k hk hxs]
    intro c hc
    rcases List.mem_cons.mp hc with h | h
    · subst h
      rw [List.length_take]
      omega
    · exact ih ((xs.drop k).length) (by rw [List.length_drop]; omega) (xs.drop k) rfl c h

theorem chunks_full (xs : List α) (k : Nat) (hk : 0 < k) :
    ∀ i, i + 1 < (chunks xs k).length →
      ∃ c, (chunks xs k)[i]? = some c ∧ c.length = k := by
  induction' hn : xs.length using Nat.strong_induction_on with n ih generalizing xs
  by_cases hxs : xs = []
  · intro i h
    rw [hxs, chunks_nil] at h
    simp at h
  · have hl : 0 < xs.length := List.length_pos.mpr hxs
    intro i h
    rw [chunks_cons xs k hk hxs] at h ⊢
    cases i with
    | zero =>
      refine ⟨xs.take k, by simp, ?_⟩
      have hdrop : xs.drop k ≠ [] := by
        intro hd
        rw [hd, chunks_nil] at h
        simp at h
      have hdl : 0 < (xs.drop k).length := List.length_pos.mpr hdrop
      rw [List.length_drop] at hdl
      rw [List.length_take]
      omega
    | succ j =>
      rw [List.length_cons] at h
      have := ih ((xs.drop k).length) (by rw [List.length_drop]; omega) (xs.drop k) rfl j
        (by omega)
      simpa using this

/-! ## Lemmas about whitespace and string escapes -/

theorem skipWs_cons_not_ws {c : Char} (r : List Char)
    (h : ¬(c = ' ' ∨ c = '\n' ∨ c = '\t' ∨ c = '\r')) : skipWs (c :: r) = c :: r := by
  rw [skipWs, if_neg h]

theorem skipWs_append_wsOnly {p : List Char} (hp : wsOnly p) (s : List Char) :
    skipWs (p ++ s) = skipWs s := by
  induction p with
  | nil => rfl
  | cons c p ih =>
    have hc := hp c (by simp)
    rw [List.cons_append, skipWs, if_pos hc]
    exact ih (fun d hd => hp d (by simp [hd]))

theorem spaces_wsOnly (n : Nat) : wsOnly (spaces n) := by
  induction n with
  | zero => intro c hc; simp [spaces] at hc
  | succ n ih =>
    intro c hc
    rw [spaces] at hc
    rcases List.mem_cons.mp hc with h | h
    · subst h; left; rfl
    · exact ih c h

theorem nl_spaces_wsOnly (n : Nat) : wsOnly ('\n' :: spaces n) := by
  intro c hc
  rcases List.mem_cons.mp hc with h | h
  · subst h; right; left; rfl
  · exact spaces_wsOnly n c h

theorem parseValue_wsPre (fuel : Nat) {p : List Char} (s : List Char) (hp : wsOnly p) :
    parseValue fuel (p ++ s) = parseValue fuel s := by
  cases fuel with
  | zero => rfl
  | succ fuel => rw [parseValue, parseValue, skipWs_append_wsOnly hp s]

theorem parseMembs_wsPre (fuel : Nat) {p : List Char} (s : List Char) (hp : wsOnly p) :
    parseMembs fuel (p ++ s) = parseMembs fuel s := by
  cases fuel with
  | zero => rfl
  | succ fuel => rw [parseMembs, parseMembs, skipWs_append_wsOnly hp s]

theorem hexVal_hexDigitChar : ∀ d, d < 16 → hexVal (hexDigitChar d) = some d := by decide

theorem parseStringBody_short (e u : Char) (h : unescChar e = some u) (he : e ≠ 'u')
    (tail : List Char) :
    parseStringBody ('\\' :: e :: tail)
      = (parseStringBody tail).map (fun p => (u :: p.1, p.2)) := by
  conv_lhs => rw [parseStringBody.eq_def]
  simp only [he, h]
  rfl

theorem parseStringBody_lit {c : Char} (h1 : c ≠ '"') (h2 : c ≠ '\\')
    (h8 : ¬c.toNat < 32) (tail : List Char) :
    parseStringBody (c :: tail)
      = (parseStringBody tail).map (fun p => (c :: p.1, p.2)) := by
  conv_lhs => rw [parseStringBody.eq_def]
  simp only [h1, h2, h8]
  rfl

theorem parseStringBody_hex {c : Char} (h8 : c.toNat < 32) (tail : List Char) :
    parseStringBody ('\\' :: 'u' :: '0' :: '0' :: hexDigitChar (c.toNat / 16)
        :: hexDigitChar (c.toNat % 16) :: tail)
      = (parseStringBody tail).map (fun p => (c :: p.1, p.2)) := by
  conv_lhs => rw [parseStringBody.eq_def]
  simp only [show hexVal '0' = some 0 from rfl,
    hexVal_hexDigitChar (c.toNat / 16) (by omega),
    hexVal_hexDigitChar (c.toNat % 16) (by omega)]
  rw [show ((0 * 16 + 0) * 16 + c.toNat / 16) * 16 + c.toNat % 16 = c.toNat from by omega,
    Char.ofNat_toNat c]
  rfl

theorem parseStringBody_escape (cs rest : List Char) :
    parseStringBody ((cs.map escChar).flatten ++ '"' :: rest) = some (cs, rest) := by
  induction cs with
  | nil =>
    rw [List.map_nil, List.flatten_nil, List.nil_append]
    conv_lhs => rw [parseStringBody.eq_def]
    rfl
  | cons c cs ih =>
    rw [List.map_cons, List.flatten_cons, List.append_assoc]
    by_cases h1 : c = '"'
    · subst h1
      rw [show escChar '"' = ['\\', '"'] from rfl, List.cons_append, List.cons_append,
        List.nil_append, parseStringBody_short '"' '"' rfl (by decide), ih]
      rfl
    · by_cases h2 : c = '\\'
      · subst h2
        rw [show escChar '\\' = ['\\', '\\'] from rfl, List.cons_append, List.cons_append,
          List.nil_append, parseStringBody_short '\\' '\\' rfl (by decide), ih]
        rfl
      · by_cases h3 : c = '\n'
        · subst h3
          rw [show escChar '\n' = ['\\', 'n'] from rfl, List.cons_append, List.cons_append,
            List.nil_append, parseStringBody_short 'n' '\n' rfl (by decide), ih]
          rfl
        · by_cases h4 : c = '\t'
          · subst h4
            rw [show escChar '\t' = ['\\', 't'] from rfl, List.cons_append, List.cons_append,
              List.nil_append, parseStringBody_short 't' '\t' rfl (by decide), ih]
            rfl
          · by_cases h5 : c = '\r'
            · subst h5
              rw [show escChar '\r' = ['\\', 'r'] from rfl, List.cons_append, List.cons_append,
                List.nil_append, parseStringBody_short 'r' '\r' rfl (by decide), ih]
              rfl
            · by_cases h6 : c = Char.ofNat 8
              · subst h6
                rw [show escChar (Char.ofNat 8) = ['\\', 'b'] from rfl, List.cons_append,
                  List.cons_append, List.nil_append, parseStringBody_short 'b' (Char.ofNat 8) rfl (by decide), ih]
                rfl
              · by_cases h7 : c = Char.ofNat 12
                · subst h7
                  rw [show escChar (Char.ofNat 12) = ['\\', 'f'] from rfl, List.cons_append,
                    List.cons_append, List.nil_append, parseStringBody_short 'f' (Char.ofNat 12) rfl (by decide), ih]
                  rfl
                · by_cases h8 : c.toNat < 32
                  · rw [escChar, if_neg h1, if_neg h2, if_neg h3, if_neg h4, if_neg h5,
                      if_neg h6, if_neg h7, if_pos h8, List.cons_append, List.cons_append,
                      List.cons_append, List.cons_append, List.cons_append, List.cons_append,
                      List.nil_append, parseStringBody_hex h8, ih]
                    rfl
                  · rw [escChar, if_neg h1, if_neg h2, if_neg h3, if_neg h4, if_neg h5,
                      if_neg h6, if_neg h7, if_neg h8, List.cons_append, List.nil_append,
                      parseStringBody_lit h1 h2 h8, ih]
                    rfl

/-! ## The head character of a dump -/

theorem intRepr_head (n : Int) :
    ∃ c r, intRepr n = c :: r ∧ (c = '-' ∨ isDigitChar c = true) := by
  rw [intRepr]
  by_cases hn : n < 0
  · exact ⟨'-', _, by rw [if_pos hn], Or.inl rfl⟩
  · obtain ⟨d, ds, hcons⟩ := List.exists_cons_of_ne_nil (natDigits_ne_nil n.toNat)
    refine ⟨d, ds, by rw [if_neg hn, hcons], Or.inr ?_⟩
    exact natDigits_digits n.toNat d (by rw [hcons]; simp)

theorem dumpVal_head (ind : Nat) (v : Json) :
    ∃ c r, dumpVal ind v = c :: r ∧
      ¬(c = ' ' ∨ c = '\n' ∨ c = '\t' ∨ c = '\r') ∧ c ≠ ']' ∧ c ≠ '}' := by
  cases v with
  | null => exact ⟨'n', ['u', 'l', 'l'], by rw [dumpVal], by decide, by decide, by decide⟩
  | bool b =>
    cases b with
    | true => exact ⟨'t', ['r', 'u', 'e'], by rw [dumpVal], by decide, by decide, by decide⟩
    | false =>
      exact ⟨'f', ['a', 'l', 's', 'e'], by rw [dumpVal], by decide, by decide, by decide⟩
  | int n =>
    obtain ⟨c, r, hcr, hc⟩ := intRepr_head n
    refine ⟨c, r, by rw [dumpVal]; exact hcr, ?_, ?_, ?_⟩
    · rcases hc with h | h
      · subst h; decide
      · rw [isDigitChar_iff] at h
        rintro (h2 | h2 | h2 | h2) <;> subst h2 <;> revert h <;> decide
    · rcases hc with h | h
      · subst h; decide
      · rw [isDigitChar_iff] at h
        intro h2
        subst h2
        revert h
        decide
    · rcases hc with h | h
      · subst h; decide
      · rw [isDigitChar_iff] at h
        intro h2
        subst h2
        revert h
        decide
  | str s =>
    exact ⟨'"', (s.data.map escChar).flatten ++ ['"'],
      by rw [dumpVal, dumpKey, List.cons_append], by decide, by decide, by decide⟩
  | arr elems =>
    cases elems with
    | nil => exact ⟨'[', [']'], by rw [dumpVal], by decide, by decide, by decide⟩
    | cons x xs =>
      exact ⟨'[', '\n' :: (spaces (ind + 2) ++ dumpItems ind x xs), by rw [dumpVal], by decide,
        by decide, by decide⟩
  | obj membs =>
    cases membs with
    | nil => exact ⟨'{', ['}'], by rw [dumpVal], by decide, by decide, by decide⟩
    | cons kv kvs =>
      exact ⟨'{', '\n' :: (spaces (ind + 2) ++ dumpMembs ind kv kvs), by rw [dumpVal], by decide,
        by decide, by decide⟩

theorem dumpItems_head (ind : Nat) (x : Json) (xs : List Json) :
    ∃ c r, dumpItems ind x xs = c :: r ∧
      ¬(c = ' ' ∨ c = '\n' ∨ c = '\t' ∨ c = '\r') ∧ c ≠ ']' ∧ c ≠ '}' := by
  obtain ⟨c, r, hcr, hws, hb, hb2⟩ := dumpVal_head (ind + 2) x
  cases xs with
  | nil => exact ⟨c, r ++ '\n' :: (spaces ind ++ [']']), by rw [dumpItems, hcr, List.cons_append],
      hws, hb, hb2⟩
  | cons y ys =>
    exact ⟨c, r ++ ',' :: '\n' :: (spaces (ind + 2) ++ dumpItems ind y ys),
      by rw [dumpItems, hcr, List.cons_append], hws, hb, hb2⟩

theorem dumpMembs_head (ind : Nat) (kv : String × Json) (kvs : List (String × Json)) :
    ∃ r, dumpMembs ind kv kvs = '"' :: r := by
  obtain ⟨k, v⟩ := kv
  cases kvs with
  | nil =>
    exact ⟨((k.data.map escChar).flatten ++ ['"'])
        ++ ':' :: ' ' :: (dumpVal (ind + 2) v ++ '\n' :: (spaces ind ++ ['}'])),
      by rw [dumpMembs, dumpKey, List.cons_append, List.cons_append]⟩
  | cons kv2 kvs2 =>
    exact ⟨((k.data.map escChar).flatten ++ ['"'])
        ++ ':' :: ' ' :: (dumpVal (ind + 2) v
          ++ ',' :: '\n' :: (spaces (ind + 2) ++ dumpMembs ind kv2 kvs2)),
      by rw [dumpMembs, dumpKey, List.cons_append, List.cons_append]⟩

theorem jfuel_pos (v : Json) : 1 ≤ jfuel v := by
  cases v with
  | null => simp [jfuel]
  | bool b => simp [jfuel]
  | int n => simp [jfuel]
  | str s => simp [jfuel]
  | arr elems => cases elems <;> simp [jfuel]
  | obj membs =>
    cases membs with
    | nil => simp [jfuel]
    | cons kv kvs =>
      obtain ⟨k, w⟩ := kv
      simp [jfuel]

theorem jfuelItems_pos (x : Json) (xs : List Json) : 1 ≤ jfuelItems x xs := by
  cases xs <;> simp [jfuelItems] <;> omega

theorem jfuelMembs_pos (kv : String × Json) (kvs : List (String × Json)) :
    1 ≤ jfuelMembs kv kvs := by
  obtain ⟨k, w⟩ := kv
  cases kvs <;> simp [jfuelMembs] <;> omega

theorem goodRest_not_digit {rest : List Char} (h : goodRest rest) :
    ∀ c, rest.head? = some c → isDigitChar c = false := by
  intro c hc
  cases rest with
  | nil => simp at hc
  | cons d r =>
    simp at hc
    subst hc
    rcases h with h | h <;> subst h <;> decide

theorem skipWs_nl (l : List Char) : skipWs ('\n' :: l) = skipWs l := by
  rw [skipWs, if_pos (by decide)]

theorem skipWs_space (l : List Char) : skipWs (' ' :: l) = skipWs l := by
  rw [skipWs, if_pos (by decide)]

theorem skipWs_spaces_append (n : Nat) (l : List Char) :
    skipWs (spaces n ++ l) = skipWs l :=
  skipWs_append_wsOnly (spaces_wsOnly n) l

theorem skipWs_quote (l : List Char) : skipWs ('"' :: l) = '"' :: l := rfl

theorem skipWs_comma (l : List Char) : skipWs (',' :: l) = ',' :: l := rfl

theorem skipWs_colon (l : List Char) : skipWs (':' :: l) = ':' :: l := rfl

theorem skipWs_rbrack (l : List Char) : skipWs (']' :: l) = ']' :: l := rfl

theorem skipWs_rbrace (l : List Char) : skipWs ('}' :: l) = '}' :: l := rfl

theorem isDigit_ne {d : Char} (hd : isDigitChar d = true) {ch : Char}
    (hch : isDigitChar ch = false) : d ≠ ch := by
  intro h
  subst h
  rw [hd] at hch
  cases hch

theorem intRepr_head_props (n : Int) :
    ∃ c r, intRepr n = c :: r ∧ ¬(c = ' ' ∨ c = '\n' ∨ c = '\t' ∨ c = '\r') ∧
      c ≠ 'n' ∧ c ≠ 't' ∧ c ≠ 'f' ∧ c ≠ '"' ∧ c ≠ '[' ∧ c ≠ '{' := by
  obtain ⟨c, r, hcr, hc⟩ := intRepr_head n
  rcases hc with h | h
  · subst h
    exact ⟨'-', r, hcr, by decide, by decide, by decide, by decide, by decide, by decide,
      by decide⟩
  · exact ⟨c, r, hcr,
      by rw [isDigitChar_iff] at h
         rintro (h2 | h2 | h2 | h2) <;> subst h2 <;> revert h <;> decide,
      isDigit_ne h (by decide), isDigit_ne h (by decide), isDigit_ne h (by decide),
      isDigit_ne h (by decide), isDigit_ne h (by decide), isDigit_ne h (by decide)⟩

/-! ## The round trip: `parseValue` inverts `dumpVal` -/

mutual

theorem roundtrip_val : ∀ (v : Json) (ind fuel : Nat) (rest : List Char),
    jfuel v ≤ fuel → goodRest rest →
    parseValue fuel (dumpVal ind v ++ rest) = some (v, rest)
  | .null, ind, fuel, rest, hfuel, hrest => by
    obtain ⟨f, rfl⟩ : ∃ f, fuel = f + 1 := ⟨fuel - 1, by have := jfuel_pos .null; omega⟩
    rw [dumpVal]
    rfl
  | .bool true, ind, fuel, rest, hfuel, hrest => by
    obtain ⟨f, rfl⟩ : ∃ f, fuel = f + 1 := ⟨fuel - 1, by have := jfuel_pos (.bool true); omega⟩
    rw [dumpVal]
    rfl
  | .bool false, ind, fuel, rest, hfuel, hrest => by
    obtain ⟨f, rfl⟩ : ∃ f, fuel = f + 1 := ⟨fuel - 1, by have := jfuel_pos (.bool false); omega⟩
    rw [dumpVal]
    rfl
  | .int n, ind, fuel, rest, hfuel, hrest => by
    obtain ⟨f, rfl⟩ : ∃ f, fuel = f + 1 := ⟨fuel - 1, by have := jfuel_pos (.int n); omega⟩
    rw [dumpVal]
    obtain ⟨c, r, hcr, hws, hn1, hn2, hn3, hn4, hn5, hn6⟩ := intRepr_head_props n
    rw [hcr, List.cons_append, parseValue, skipWs_cons_not_ws _ hws]
    simp only [hn1, hn2, hn3, hn4, hn5, hn6, if_false, reduceIte]
    rw [← List.cons_append, ← hcr, parseNumber_intRepr n rest (goodRest_not_digit hrest)]
    rfl
  | .str s, ind, fuel, rest, hfuel, hrest => by
    obtain ⟨f, rfl⟩ : ∃ f, fuel = f + 1 := ⟨fuel - 1, by have := jfuel_pos (.str s); omega⟩
    rw [dumpVal, dumpKey]
    simp only [List.cons_append, List.append_assoc, List.singleton_append, List.nil_append]
    rw [show parseValue (f + 1) ('"' :: ((s.data.map escChar).flatten ++ '"' :: rest))
        = (parseStringBody ((s.data.map escChar).flatten ++ '"' :: rest)).map
            (fun p => (Json.str ⟨p.1⟩, p.2)) from rfl]
    rw [parseStringBody_escape]
    rfl
  | .arr [], ind, fuel, rest, hfuel, hrest => by
    obtain ⟨f, rfl⟩ : ∃ f, fuel = f + 1 := ⟨fuel - 1, by have := jfuel_pos (.arr []); omega⟩
    rw [dumpVal]
    rfl
  | .arr (x :: xs), ind, fuel, rest, hfuel, hrest => by
    obtain ⟨f, rfl⟩ : ∃ f, fuel = f + 1 :=
      ⟨fuel - 1, by have := jfuel_pos (.arr (x :: xs)); omega⟩
    rw [dumpVal]
    simp only [List.cons_append, List.append_assoc]
    obtain ⟨c, r, hcr, hws, hb, hb2⟩ := dumpItems_head ind x xs
    have hsk : skipWs ('\n' :: (spaces (ind + 2) ++ (dumpItems ind x xs ++ rest)))
        = c :: (r ++ rest) := by
      rw [skipWs_nl, skipWs_spaces_append, hcr, List.cons_append, skipWs_cons_not_ws _ hws]
    have hbranch : parseValue (f + 1)
          ('[' :: '\n' :: (spaces (ind + 2) ++ (dumpItems ind x xs ++ rest)))
        = (if (skipWs ('\n' :: (spaces (ind + 2) ++ (dumpItems ind x xs ++ rest)))).head?
              = some ']'
           then some (Json.arr [],
             (skipWs ('\n' :: (spaces (ind + 2) ++ (dumpItems ind x xs ++ rest)))).tail)
           else (parseElems f
               (skipWs ('\n' :: (spaces (ind + 2) ++ (dumpItems ind x xs ++ rest))))).map
             (fun p => (Json.arr p.1, p.2))) := rfl
    rw [hbranch, hsk, if_neg (by simp [hb])]
    have hfi : jfuelItems x xs ≤ f := by
      simp only [jfuel] at hfuel
      omega
    have hE := roundtrip_items x xs ind f rest [] hfi hrest (by intro d hd; simp at hd)
    rw [List.nil_append] at hE
    rw [← List.cons_append, ← hcr, hE]
    rfl
  | .obj [], ind, fuel, rest, hfuel, hrest => by
    obtain ⟨f, rfl⟩ : ∃ f, fuel = f + 1 := ⟨fuel - 1, by have := jfuel_pos (.obj []); omega⟩
    rw [dumpVal]
    rfl
  | .obj (kv :: kvs), ind, fuel, rest, hfuel, hrest => by
    obtain ⟨f, rfl⟩ : ∃ f, fuel = f + 1 :=
      ⟨fuel - 1, by have := jfuel_pos (.obj (kv :: kvs)); omega⟩
    rw [dumpVal]
    simp only [List.cons_append, List.append_assoc]
    obtain ⟨r, hcr⟩ := dumpMembs_head ind kv kvs
    have hsk : skipWs ('\n' :: (spaces (ind + 2) ++ (dumpMembs ind kv kvs ++ rest)))
        = '"' :: (r ++ rest) := by
      rw [skipWs_nl, skipWs_spaces_append, hcr, List.cons_append, skipWs_quote]
    have hbranch : parseValue (f + 1)
          ('{' :: '\n' :: (spaces (ind + 2) ++ (dumpMembs ind kv kvs ++ rest)))
        = (if (skipWs ('\n' :: (spaces (ind + 2) ++ (dumpMembs ind kv kvs ++ rest)))).head?
              = some '}'
           then some (Json.obj [],
             (skipWs ('\n' :: (spaces (ind + 2) ++ (dumpMembs ind kv kvs ++ rest)))).tail)
           else (parseMembs f
               (skipWs ('\n' :: (spaces (ind + 2) ++ (dumpMembs ind kv kvs ++ rest))))).map
             (fun p => (Json.obj p.1, p.2))) := rfl
    rw [hbranch, hsk, if_neg (by simp)]
    have hfm : jfuelMembs kv kvs ≤ f := by
      simp only [jfuel] at hfuel
      omega
    have hM := roundtrip_membs kv kvs ind f rest [] hfm hrest (by intro d hd; simp at hd)
    rw [List.nil_append] at hM
    rw [← List.cons_append, ← hcr, hM]
    rfl
termination_by v => sizeOf v

theorem roundtrip_items : ∀ (x : Json) (xs : List Json) (ind fuel : Nat) (rest pre : List Char),
    jfuelItems x xs ≤ fuel → goodRest rest → wsOnly pre →
    parseElems fuel (pre ++ (dumpItems ind x xs ++ rest)) = some (x :: xs, rest)
  | x, [], ind, fuel, rest, pre, hfuel, hrest, hpre => by
    obtain ⟨f, rfl⟩ : ∃ f, fuel = f + 1 := ⟨fuel - 1, by have := jfuelItems_pos x []; omega⟩
    rw [parseElems, parseValue_wsPre f _ hpre]
    have hfv : jfuel x ≤ f := by
      simp only [jfuelItems] at hfuel
      omega
    rw [dumpItems]
    simp only [List.cons_append, List.append_assoc, List.singleton_append, List.nil_append]
    rw [roundtrip_val x (ind + 2) f ('\n' :: (spaces ind ++ ']' :: rest)) hfv (Or.inr rfl)]
    simp only [skipWs_nl, skipWs_spaces_append, skipWs_rbrack]
    rfl
  | x, y :: ys, ind, fuel, rest, pre, hfuel, hrest, hpre => by
    obtain ⟨f, rfl⟩ : ∃ f, fuel = f + 1 :=
      ⟨fuel - 1, by have := jfuelItems_pos x (y :: ys); omega⟩
    rw [parseElems, parseValue_wsPre f _ hpre]
    have hfv : jfuel x ≤ f := by
      simp only [jfuelItems] at hfuel
      omega
    have hfi : jfuelItems y ys ≤ f := by
      simp only [jfuelItems] at hfuel
      omega
    rw [dumpItems]
    simp only [List.cons_append, List.append_assoc, List.nil_append]
    rw [roundtrip_val x (ind + 2) f
      (',' :: '\n' :: (spaces (ind + 2) ++ (dumpItems ind y ys ++ rest))) hfv (Or.inl rfl)]
    simp only [skipWs_comma]
    have hE := roundtrip_items y ys ind f rest ('\n' :: spaces (ind + 2)) hfi hrest
      (nl_spaces_wsOnly _)
    rw [List.cons_append] at hE
    rw [hE]
    rfl
termination_by x xs => 1 + sizeOf x + sizeOf xs

theorem roundtrip_membs : ∀ (kv : String × Json) (kvs : List (String × Json)) (ind fuel : Nat)
    (rest pre : List Char),
    jfuelMembs kv kvs ≤ fuel → goodRest rest → wsOnly pre →
    parseMembs fuel (pre ++ (dumpMembs ind kv kvs ++ rest)) = some (kv :: kvs, rest)
  | (k, v), [], ind, fuel, rest, pre, hfuel, hrest, hpre => by
    obtain ⟨f, rfl⟩ : ∃ f, fuel = f + 1 :=
      ⟨fuel - 1, by have := jfuelMembs_pos (k, v) []; omega⟩
    rw [parseMembs, skipWs_append_wsOnly hpre]
    have hfv : jfuel v ≤ f := by
      simp only [jfuelMembs] at hfuel
      omega
    rw [dumpMembs, dumpKey]
    simp only [List.cons_append, List.append_assoc, List.singleton_append, List.nil_append]
    rw [skipWs_quote]
    have hv2 : parseValue f (' ' :: (dumpVal (ind + 2) v
          ++ '\n' :: (spaces ind ++ '}' :: rest)))
        = some (v, '\n' :: (spaces ind ++ '}' :: rest)) := by
      rw [show (' ' :: (dumpVal (ind + 2) v ++ '\n' :: (spaces ind ++ '}' :: rest)))
          = [' '] ++ (dumpVal (ind + 2) v ++ '\n' :: (spaces ind ++ '}' :: rest)) from rfl,
        parseValue_wsPre f _ (by intro d hd; simp at hd; subst hd; left; rfl)]
      exact roundtrip_val v (ind + 2) f _ hfv (Or.inr rfl)
    simp only [parseStringBody_escape, skipWs_colon, hv2, skipWs_nl, skipWs_spaces_append,
      skipWs_rbrace, List.nil_append, ite_true, if_true]
    rfl
  | (k, v), kv2 :: kvs2, ind, fuel, rest, pre, hfuel, hrest, hpre => by
    obtain ⟨f, rfl⟩ : ∃ f, fuel = f + 1 :=
      ⟨fuel - 1, by have := jfuelMembs_pos (k, v) (kv2 :: kvs2); omega⟩
    rw [parseMembs, skipWs_append_wsOnly hpre]
    have hfv : jfuel v ≤ f := by
      simp only [jfuelMembs] at hfuel
      omega
    have hfm : jfuelMembs kv2 kvs2 ≤ f := by
      simp only [jfuelMembs] at hfuel
      omega
    rw [dumpMembs, dumpKey]
    simp only [List.cons_append, List.append_assoc, List.singleton_append, List.nil_append]
    rw [skipWs_quote]
    have hv2 : parseValue f (' ' :: (dumpVal (ind + 2) v
          ++ ',' :: '\n' :: (spaces (ind + 2) ++ (dumpMembs ind kv2 kvs2 ++ rest))))
        = some (v, ',' :: '\n' :: (spaces (ind + 2) ++ (dumpMembs ind kv2 kvs2 ++ rest))) := by
      rw [show (' ' :: (dumpVal (ind + 2) v
            ++ ',' :: '\n' :: (spaces (ind + 2) ++ (dumpMembs ind kv2 kvs2 ++ rest))))
          = [' '] ++ (dumpVal (ind + 2) v
            ++ ',' :: '\n' :: (spaces (ind + 2) ++ (dumpMembs ind kv2 kvs2 ++ rest))) from rfl,
        parseValue_wsPre f _ (by intro d hd; simp at hd; subst hd; left; rfl)]
      exact roundtrip_val v (ind + 2) f _ hfv (Or.inl rfl)
    have hM := roundtrip_membs kv2 kvs2 ind f rest ('\n' :: spaces (ind + 2)) hfm hrest
      (nl_spaces_wsOnly _)
    rw [List.cons_append] at hM
    simp only [parseStringBody_escape, skipWs_colon, hv2, skipWs_comma, hM, List.nil_append,
      ite_true, if_true]
    rfl
termination_by kv kvs => 1 + sizeOf kv + sizeOf kvs

end

/-! ## The fuel chosen by `parseJson` is sufficient -/

mutual

theorem jfuel_le : ∀ (v : Json) (ind : Nat), jfuel v ≤ 2 * (dumpVal ind v).length
  | .null, ind => by rw [dumpVal]; simp [jfuel]
  | .bool true, ind => by rw [dumpVal]; simp [jfuel]
  | .bool false, ind => by rw [dumpVal]; simp [jfuel]
  | .int n, ind => by
    rw [dumpVal]
    obtain ⟨c, r, hcr, _⟩ := intRepr_head n
    rw [hcr]
    simp [jfuel]
    omega
  | .str s, ind => by
    rw [dumpVal, dumpKey]
    simp [jfuel]
    omega
  | .arr [], ind => by rw [dumpVal]; simp [jfuel]
  | .arr (x :: xs), ind => by
    rw [dumpVal]
    have h := jfuelItems_le x xs ind
    simp only [jfuel, List.length_cons, List.length_append]
    omega
  | .obj [], ind => by rw [dumpVal]; simp [jfuel]
  | .obj (kv :: kvs), ind => by
    rw [dumpVal]
    have h := jfuelMembs_le kv kvs ind
    simp only [jfuel, List.length_cons, List.length_append]
    omega
termination_by v => sizeOf v

theorem jfuelItems_le : ∀ (x : Json) (xs : List Json) (ind : Nat),
    jfuelItems x xs ≤ 2 * (dumpItems ind x xs).length
  | x, [], ind => by
    rw [dumpItems]
    have h := jfuel_le x (ind + 2)
    simp only [jfuelItems, List.length_append, List.length_cons]
    omega
  | x, y :: ys, ind => by
    rw [dumpItems]
    have h := jfuel_le x (ind + 2)
    have h2 := jfuelItems_le y ys ind
    simp only [jfuelItems, List.length_append, List.length_cons]
    omega
termination_by x xs => 1 + sizeOf x + sizeOf xs

theorem jfuelMembs_le : ∀ (kv : String × Json) (kvs : List (String × Json)) (ind : Nat),
    jfuelMembs kv kvs ≤ 2 * (dumpMembs ind kv kvs).length
  | (k, v), [], ind => by
    rw [dumpMembs]
    have h := jfuel_le v (ind + 2)
    simp only [jfuelMembs, List.length_append, List.length_cons]
    omega
  | (k, v), kv2 :: kvs2, ind => by
    rw [dumpMembs]
    have h := jfuel_le v (ind + 2)
    have h2 := jfuelMembs_le kv2 kvs2 ind
    simp only [jfuelMembs, List.length_append, List.length_cons]
    omega
termination_by kv kvs => 1 + sizeOf kv + sizeOf kvs

end

/-- The JSON round trip: decoding the serialization of any value yields
the value back. -/
theorem parseJson_dumps (v : Json) : parseJson (dumps v) = some v := by
  rw [parseJson, dumps]
  have hlen : (String.mk (dumpVal 0 v)).length = (dumpVal 0 v).length := rfl
  have hfuel : jfuel v ≤ 2 * (String.mk (dumpVal 0 v)).length + 2 := by
    have := jfuel_le v 0
    omega
  have h := roundtrip_val v 0 (2 * (String.mk (dumpVal 0 v)).length + 2)
    [] hfuel trivial
  rw [List.append_nil] at h
  rw [show (String.mk (dumpVal 0 v)).data = dumpVal 0 v from rfl, h]
  rfl

/-! ## Lemmas about the file names -/

theorem chunkFileName_inj {a b : Nat} (h : chunkFileName a = chunkFileName b) : a = b := by
  have hd := congrArg String.data h
  rw [chunkFileName, chunkFileName, String.data_append, String.data_append,
    String.data_append, String.data_append] at hd
  have h2 := List.append_cancel_right hd
  have h3 := List.append_cancel_left h2
  have h4 : natRepr a = natRepr b := congrArg String.mk h3
  exact natRepr_injective h4

theorem chunkFileName_ne_prompts (i : Nat) : chunkFileName i ≠ "data/prompts.json" := by
  intro h
  have h6 : (chunkFileName i).data.take 6 = "data/prompts.json".data.take 6 := by rw [h]
  rw [show (chunkFileName i).data.take 6 = ['d', 'a', 't', 'a', '/', 't'] from rfl] at h6
  rw [show "data/prompts.json".data.take 6 = ['d', 'a', 't', 'a', '/', 'p'] from rfl] at h6
  exact absurd h6 (by decide)

/-! ## Lemmas about `readPrompts` and the scripts -/

theorem readPrompts_ok {env : Env} {content : String} {v : Json}
    (hfile : env.fs "data/prompts.json" = some content) (hparse : parseJson content = some v) :
    readPrompts env = .ok v := by
  rw [readPrompts, hfile]
  show (match parseJson content with
    | none => Except.error (PyExc.jsonDecodeError "Expecting value")
    | some v => Except.ok v) = Except.ok v
  rw [hparse]

theorem readPrompts_missing {env : Env} (hfile : env.fs "data/prompts.json" = none) :
    readPrompts env
      = .error (.fileNotFound "[Errno 2] No such file or directory: data/prompts.json") := by
  rw [readPrompts, hfile]

theorem readPrompts_badJson {env : Env} {content : String}
    (hfile : env.fs "data/prompts.json" = some content) (hparse : parseJson content = none) :
    readPrompts env = .error (.jsonDecodeError "Expecting value") := by
  rw [readPrompts, hfile]
  show (match parseJson content with
    | none => Except.error (PyExc.jsonDecodeError "Expecting value")
    | some v => Except.ok v) = Except.error (PyExc.jsonDecodeError "Expecting value")
  rw [hparse]

theorem listComp_slices (xs : List Json) (k : Nat) (l : List Nat) :
    listComp (fun (i : Nat) => pySliceJson (.arr xs) (i : Int) ((i : Int) + (k : Int))) l
      = .ok (l.map (fun (i : Nat) => Json.arr (pySlice xs (i : Int) ((i : Int) + (k : Int))))) := by
  induction l with
  | nil => rfl
  | cons i l ih =>
    rw [listComp]
    rw [show pySliceJson (Json.arr xs) (i : Int) ((i : Int) + (k : Int))
        = .ok (Json.arr (pySlice xs (i : Int) ((i : Int) + (k : Int)))) from rfl]
    rw [show (Except.ok (Json.arr (pySlice xs (i : Int) ((i : Int) + (k : Int))))
          : Except PyExc Json) >>= (fun c => listComp _ l >>= fun cs => pure (c :: cs))
        = (listComp (fun (i : Nat) => pySliceJson (.arr xs) (i : Int) ((i : Int) + (k : Int))) l
            >>= fun cs => pure (Json.arr (pySlice xs (i : Int) ((i : Int) + (k : Int))) :: cs))
      from rfl]
    rw [ih]
    rfl

theorem writeChunks_ok (cs : List (List Json)) : ∀ (env : Env) (i : Nat),
    (∀ p, env.writeErr p = none) →
    (writeChunks env i (cs.map Json.arr)).exc = none ∧
    (writeChunks env i (cs.map Json.arr)).out
      = (cs.enumFrom i).map
          (fun p => "Created " ++ chunkFileName p.1 ++ " with " ++ natRepr p.2.length ++ " items") ∧
    (writeChunks env i (cs.map Json.arr)).env.writeErr = env.writeErr ∧
    (∀ j (hj : j < cs.length),
      (writeChunks env i (cs.map Json.arr)).env.fs (chunkFileName (i + j))
        = some (dumps (Json.arr (cs.get ⟨j, hj⟩)))) ∧
    (∀ p, (∀ j, j < cs.length → p ≠ chunkFileName (i + j)) →
      (writeChunks env i (cs.map Json.arr)).env.fs p = env.fs p) := by
  induction cs with
  | nil =>
    intro env i hw
    refine ⟨rfl, rfl, rfl, ?_, ?_⟩
    · intro j hj
      simp at hj
    · intro p hp
      rfl
  | cons c cs ih =>
    intro env i hw
    rw [List.map_cons, writeChunks, hw (chunkFileName i)]
    obtain ⟨hexc, hout, hwr, hfs, hframe⟩ := ih
      { env with
        fs := fun p => if p = chunkFileName i then some (dumps (Json.arr c)) else env.fs p }
      (i + 1) hw
    refine ⟨hexc, ?_, hwr, ?_, ?_⟩
    · rw [show pyLen (Json.arr c) = Except.ok c.length from rfl]
      rw [List.enumFrom_cons, List.map_cons]
      exact congrArg _ hout
    · intro j hj
      cases j with
      | zero =>
        have hne : ∀ j2, j2 < cs.length → chunkFileName (i + 0) ≠ chunkFileName (i + 1 + j2) := by
          intro j2 _ hcontra
          have := chunkFileName_inj hcontra
          omega
        show (writeChunks
            { env with
              fs := fun p =>
                if p = chunkFileName i then some (dumps (Json.arr c)) else env.fs p }
            (i + 1) (cs.map Json.arr)).env.fs (chunkFileName (i + 0))
          = some (dumps (Json.arr c))
        rw [hframe (chunkFileName (i + 0)) hne]
        show (if chunkFileName (i + 0) = chunkFileName i then some (dumps (Json.arr c))
          else env.fs (chunkFileName (i + 0))) = some (dumps (Json.arr c))
        rw [if_pos (by rw [Nat.add_zero])]
      | succ j2 =>
        have hj2 : j2 < cs.length := by
          simp only [List.length_cons] at hj
          omega
        have h := hfs j2 hj2
        show (writeChunks
            { env with
              fs := fun p =>
                if p = chunkFileName i then some (dumps (Json.arr c)) else env.fs p }
            (i + 1) (cs.map Json.arr)).env.fs (chunkFileName (i + (j2 + 1)))
          = some (dumps (Json.arr (cs.get ⟨j2, hj2⟩)))
        rw [show i + (j2 + 1) = i + 1 + j2 from by omega, h]
    · intro p hp
      have hp2 : ∀ j, j < cs.length → p ≠ chunkFileName (i + 1 + j) := by
        intro j hj
        have h := hp (j + 1) (by simp only [List.length_cons]; omega)
        rw [show i + (j + 1) = i + 1 + j from by omega] at h
        exact h
      show (writeChunks
          { env with
            fs := fun p =>
              if p = chunkFileName i then some (dumps (Json.arr c)) else env.fs p }
          (i + 1) (cs.map Json.arr)).env.fs p = env.fs p
      rw [hframe p hp2]
      show (if p = chunkFileName i then some (dumps (Json.arr c)) else env.fs p) = env.fs p
      rw [if_neg (by have := hp 0 (by simp); rw [Nat.add_zero] at this; exact this)]

theorem writeChunks_err (cs : List (List Json)) : ∀ (env : Env) (i j : Nat) (m : String),
    j < cs.length →
    (∀ j2, j2 < j → env.writeErr (chunkFileName (i + j2)) = none) →
    env.writeErr (chunkFileName (i + j)) = some m →
    (writeChunks env i (cs.map Json.arr)).exc = some (.osError m) ∧
    (writeChunks env i (cs.map Json.arr)).out
      = ((cs.take j).enumFrom i).map
          (fun p =>
            "Created " ++ chunkFileName p.1 ++ " with " ++ natRepr p.2.length ++ " items") := by
  induction cs with
  | nil =>
    intro env i j m hj _ _
    simp at hj
  | cons c cs ih =>
    intro env i j m hj hnone herr
    cases j with
    | zero =>
      rw [Nat.add_zero] at herr
      rw [List.map_cons, writeChunks, herr]
      exact ⟨rfl, rfl⟩
    | succ j2 =>
      have h0 : env.writeErr (chunkFileName i) = none := by
        have h := hnone 0 (by omega)
        rwa [Nat.add_zero] at h
      rw [List.map_cons, writeChunks, h0]
      have hrec := ih
        { env with
          fs := fun p => if p = chunkFileName i then some (dumps (Json.arr c)) else env.fs p }
        (i + 1) j2 m
        (by simp only [List.length_cons] at hj; omega)
        (by
          intro j3 hj3
          have h := hnone (j3 + 1) (by omega)
          rwa [show i + (j3 + 1) = i + 1 + j3 from by omega] at h)
        (by
          have h := herr
          rwa [show i + (j2 + 1) = i + 1 + j2 from by omega] at h)
      refine ⟨hrec.1, ?_⟩
      rw [show pyLen (Json.arr c) = Except.ok c.length from rfl,
        List.take_succ_cons, List.enumFrom_cons, List.map_cons]
      exact congrArg _ hrec.2

theorem split_gen_eq {env : Env} {xs : List Json} {k : Nat} {content : String}
    (hfile : env.fs "data/prompts.json" = some content)
    (hparse : parseJson content = some (Json.arr xs)) :
    split_prompts_gen env k
      = ⟨(writeChunks env 0 ((chunks xs k).map Json.arr)).env,
          ("Total items: " ++ natRepr xs.length)
            :: (writeChunks env 0 ((chunks xs k).map Json.arr)).out,
          (writeChunks env 0 ((chunks xs k).map Json.arr)).exc⟩ := by
  have hr : readPrompts env = .ok (.arr xs) := readPrompts_ok hfile hparse
  have hlc : listComp (fun (i : Nat) => pySliceJson (.arr xs) (i : Int) ((i : Int) + (k : Int)))
      (pyrange xs.length k) = .ok ((chunks xs k).map Json.arr) := by
    rw [listComp_slices xs k, chunks, List.map_map]
    rfl
  rw [split_prompts_gen, hr]
  show (match listComp (fun (i : Nat) => pySliceJson (.arr xs) (i : Int) ((i : Int) + (k : Int)))
        (pyrange xs.length k) with
      | Except.error e => (⟨env, ["Total items: " ++ natRepr xs.length], some e⟩ : RunResult)
      | Except.ok cs =>
          ⟨(writeChunks env 0 cs).env,
            ("Total items: " ++ natRepr xs.length) :: (writeChunks env 0 cs).out,
            (writeChunks env 0 cs).exc⟩)
    = _
  rw [hlc]

theorem split_gen_missing {env : Env} (k : Nat) (hfile : env.fs "data/prompts.json" = none) :
    split_prompts_gen env k
      = ⟨env, [], some (.fileNotFound "[Errno 2] No such file or directory: data/prompts.json")⟩ := by
  rw [split_prompts_gen, readPrompts_missing hfile]

theorem split_gen_badJson {env : Env} {content : String} (k : Nat)
    (hfile : env.fs "data/prompts.json" = some content) (hparse : parseJson content = none) :
    split_prompts_gen env k = ⟨env, [], some (.jsonDecodeError "Expecting value")⟩ := by
  rw [split_prompts_gen, readPrompts_badJson hfile hparse]

theorem extract_body_ok {env : Env} {content : String} {xs : List Json}
    (hfile : env.fs "data/prompts.json" = some content)
    (hparse : parseJson content = some (Json.arr xs)) (start count : Int) :
    extract_body env start count = .ok (dumps (.arr (pySlice xs start (start + count)))) := by
  rw [extract_body, readPrompts_ok hfile hparse]
  rfl

theorem extract_batch_of_body_ok {env : Env} {start count : Int} {out : String}
    (h : extract_body env start count = .ok out) :
    extract_batch env start count = (env, [out]) := by
  rw [extract_batch, h]

theorem extract_batch_of_body_err {env : Env} {start count : Int} {e : PyExc}
    (h : extract_body env start count = .error e) :
    extract_batch env start count = (env, ["Error: " ++ e.msg]) := by
  rw [extract_batch, h]

/-! ## The claims -/

/-- C1: for every Dataset `xs` decoded from the source file and all integers
`start, count ≥ 0`, `extract_batch` prints exactly the JSON serialization of
the truncating slice `Dataset[start : start+count]`; that slice is the
standard take/drop slice; JSON-decoding the printed output yields the slice
back; and if `start ≥ len(Dataset)` the printed output is the empty
array `[]`. -/
theorem extract_batch_slice_roundtrip (env : Env) (content : String) (xs : List Json)
    (start count : Int) (hs : 0 ≤ start) (hc : 0 ≤ count)
    (hfile : env.fs "data/prompts.json" = some content)
    (hparse : parseJson content = some (Json.arr xs)) :
    (extract_batch env start count).2
        = [dumps (Json.arr (pySlice xs start (start + count)))] ∧
    pySlice xs start (start + count) = (xs.drop start.toNat).take count.toNat ∧
    parseJson (dumps (Json.arr (pySlice xs start (start + count))))
        = some (Json.arr (pySlice xs start (start + count))) ∧
    ((xs.length : Int) ≤ start → dumps (Json.arr (pySlice xs start (start + count))) = "[]") := by
  refine ⟨?_, pySlice_of_nonneg xs start count hs hc, parseJson_dumps _, ?_⟩
  · rw [extract_batch_of_body_ok (extract_body_ok hfile hparse start count)]
  · intro hlen
    rw [pySlice_empty_of_ge xs start count hs hc hlen, dumps, dumpVal]

theorem extract_batch_slice_roundtrip_witness :
    (extract_batch
        ⟨fun p => if p = "data/prompts.json" then some "[1, 2, 3]" else none, fun _ => none⟩
        1 1).2
      = [dumps (Json.arr (pySlice [Json.int 1, Json.int 2, Json.int 3] 1 (1 + 1)))] ∧
    pySlice [Json.int 1, Json.int 2, Json.int 3] 1 (1 + 1)
      = ([Json.int 1, Json.int 2, Json.int 3].drop (1 : Int).toNat).take (1 : Int).toNat ∧
    parseJson (dumps (Json.arr (pySlice [Json.int 1, Json.int 2, Json.int 3] 1 (1 + 1))))
      = some (Json.arr (pySlice [Json.int 1, Json.int 2, Json.int 3] 1 (1 + 1))) ∧
    (([Json.int 1, Json.int 2, Json.int 3].length : Int) ≤ 1 →
      dumps (Json.arr (pySlice [Json.int 1, Json.int 2, Json.int 3] 1 (1 + 1))) = "[]") :=
  extract_batch_slice_roundtrip
    ⟨fun p => if p = "data/prompts.json" then some "[1, 2, 3]" else none, fun _ => none⟩
    "[1, 2, 3]" [Json.int 1, Json.int 2, Json.int 3] 1 1 (by decide) (by decide) rfl rfl

/-- C2: for every Dataset and chunk size `k > 0`, concatenating the chunks
produced by line 13 of `split_prompts.py` in order reproduces the Dataset
exactly. -/
theorem chunks_concat_eq (xs : List α) (k : Nat) (hk : 0 < k) :
    (chunks xs k).flatten = xs :=
  chunks_flatten xs k hk

theorem chunks_concat_eq_witness :
    0 < 2 ∧ (chunks [1, 2, 3, 4, 5] 2).flatten = [1, 2, 3, 4, 5] :=
  ⟨by decide, chunks_concat_eq [1, 2, 3, 4, 5] 2 (by decide)⟩

/-- C3: for every Dataset and chunk size `k > 0`, the number of chunks is
`ceil(len / k) = (len + k - 1) / k`; every chunk except possibly the last
has exactly `k` elements; every chunk is nonempty and has at most `k`
elements (so the last has size in `[1, k]`); and the empty Dataset yields
zero chunks. -/
theorem chunks_shape (xs : List α) (k : Nat) (hk : 0 < k) :
    (chunks xs k).length = (xs.length + k - 1) / k ∧
    (∀ i, i + 1 < (chunks xs k).length → ∃ c, (chunks xs k)[i]? = some c ∧ c.length = k) ∧
    (∀ c ∈ chunks xs k, 1 ≤ c.length ∧ c.length ≤ k) ∧
    (xs = [] → chunks xs k = []) :=
  ⟨chunks_length xs k hk, chunks_full xs k hk, chunks_mem xs k hk,
    fun h => by rw [h, chunks_nil]⟩

theorem chunks_shape_witness :
    0 < 2 ∧
    ((chunks [1, 2, 3, 4, 5] 2).length = ([1, 2, 3, 4, 5].length + 2 - 1) / 2 ∧
    (∀ i, i + 1 < (chunks [1, 2, 3, 4, 5] 2).length →
      ∃ c, (chunks [1, 2, 3, 4, 5] 2)[i]? = some c ∧ c.length = 2) ∧
    (∀ c ∈ chunks [1, 2, 3, 4, 5] 2, 1 ≤ c.length ∧ c.length ≤ 2) ∧
    ([1, 2, 3, 4, 5] = ([] : List Nat) → chunks [1, 2, 3, 4, 5] 2 = [])) :=
  ⟨by decide, chunks_shape [1, 2, 3, 4, 5] 2 (by decide)⟩

/-- C4: whenever the body of `extract_batch` (load, slice, serialize) raises
an exception `e`, the exception is caught and the run prints exactly the
single line `"Error: " ++ str(e)`, leaving the environment unchanged and
returning normally (the result is an ordinary pair, not a propagated
exception). -/
theorem extract_batch_catches_all (env : Env) (start count : Int) (e : PyExc)
    (herr : extract_body env start count = .error e) :
    extract_batch env start count = (env, ["Error: " ++ e.msg]) :=
  extract_batch_of_body_err herr

theorem extract_batch_catches_all_witness :
    extract_batch ⟨fun _ => none, fun _ => none⟩ 30 50
      = (⟨fun _ => none, fun _ => none⟩,
          ["Error: "
            ++ (PyExc.fileNotFound "[Errno 2] No such file or directory: data/prompts.json").msg]) :=
  extract_batch_catches_all ⟨fun _ => none, fun _ => none⟩ 30 50
    (PyExc.fileNotFound "[Errno 2] No such file or directory: data/prompts.json") rfl

/-- C5: `split_prompts` catches nothing.  A missing source file or malformed
JSON aborts the run at once with the underlying exception and no output; a
write failure on chunk `j` (all earlier writes succeeding) aborts the run
with the underlying `OSError` after printing only the total-count line and
the progress lines of the chunks before `j`. -/
theorem split_prompts_propagates (env : Env) (k : Nat) :
    (env.fs "data/prompts.json" = none →
      split_prompts_gen env k
        = ⟨env, [],
            some (.fileNotFound "[Errno 2] No such file or directory: data/prompts.json")⟩) ∧
    (∀ content, env.fs "data/prompts.json" = some content → parseJson content = none →
      split_prompts_gen env k = ⟨env, [], some (.jsonDecodeError "Expecting value")⟩) ∧
    (∀ content xs j m, env.fs "data/prompts.json" = some content →
      parseJson content = some (Json.arr xs) → j < (chunks xs k).length →
      (∀ j2, j2 < j → env.writeErr (chunkFileName j2) = none) →
      env.writeErr (chunkFileName j) = some m →
      (split_prompts_gen env k).exc = some (.osError m) ∧
      (split_prompts_gen env k).out
        = ("Total items: " ++ natRepr xs.length)
            :: (((chunks xs k).take j).enum.map
              (fun p =>
                "Created " ++ chunkFileName p.1 ++ " with " ++ natRepr p.2.length
                  ++ " items"))) := by
  refine ⟨split_gen_missing k, fun content h1 h2 => split_gen_badJson k h1 h2, ?_⟩
  intro content xs j m hfile hparse hj hnone herr
  have hwc := writeChunks_err (chunks xs k) env 0 j m hj
    (by intro j2 hj2; rw [Nat.zero_add]; exact hnone j2 hj2)
    (by rw [Nat.zero_add]; exact herr)
  rw [split_gen_eq hfile hparse]
  refine ⟨hwc.1, ?_⟩
  show ("Total items: " ++ natRepr xs.length)
      :: (writeChunks env 0 ((chunks xs k).map Json.arr)).out = _
  rw [hwc.2]
  rfl

theorem split_prompts_propagates_witness :
    split_prompts_gen ⟨fun _ => none, fun _ => none⟩ 50
      = ⟨⟨fun _ => none, fun _ => none⟩, [],
          some (.fileNotFound "[Errno 2] No such file or directory: data/prompts.json")⟩ :=
  (split_prompts_propagates ⟨fun _ => none, fun _ => none⟩ 50).1 rfl

/-- C6: for a non-empty Dataset (and writable output paths), `split_prompts`
completes without an exception, writes chunk `j` to
`data/temp_chunk_<j>.json` as its indented JSON dump for every `j`, leaves
every other path untouched, and prints exactly the total-count line
followed by one `Created ... with N items` line per chunk, in order. -/
theorem split_prompts_files_and_output (env : Env) (content : String) (xs : List Json)
    (k : Nat) (hk : 0 < k) (hne : xs ≠ [])
    (hfile : env.fs "data/prompts.json" = some content)
    (hparse : parseJson content = some (Json.arr xs))
    (hwr : ∀ p, env.writeErr p = none) :
    (split_prompts_gen env k).exc = none ∧
    (split_prompts_gen env k).out
      = ("Total items: " ++ natRepr xs.length)
          :: (chunks xs k).enum.map
            (fun p =>
              "Created " ++ chunkFileName p.1 ++ " with " ++ natRepr p.2.length ++ " items") ∧
    (∀ j (hj : j < (chunks xs k).length),
      (split_prompts_gen env k).env.fs (chunkFileName j)
        = some (dumps (Json.arr ((chunks xs k).get ⟨j, hj⟩)))) ∧
    (∀ p, (∀ j, j < (chunks xs k).length → p ≠ chunkFileName j) →
      (split_prompts_gen env k).env.fs p = env.fs p) := by
  obtain ⟨hexc, hout, hwr2, hfs, hframe⟩ := writeChunks_ok (chunks xs k) env 0 hwr
  rw [split_gen_eq hfile hparse]
  refine ⟨hexc, ?_, ?_, ?_⟩
  · show ("Total items: " ++ natRepr xs.length)
        :: (writeChunks env 0 ((chunks xs k).map Json.arr)).out = _
    rw [hout]
    rfl
  · intro j hj
    have h := hfs j hj
    rw [Nat.zero_add] at h
    exact h
  · intro p hp
    refine hframe p ?_
    intro j hj
    rw [Nat.zero_add]
    exact hp j hj

theorem split_prompts_files_and_output_witness :
    ((split_prompts_gen
        ⟨fun p => if p = "data/prompts.json" then some "[1, 2, 3]" else none, fun _ => none⟩
        2).exc = none ∧
    (split_prompts_gen
        ⟨fun p => if p = "data/prompts.json" then some "[1, 2, 3]" else none, fun _ => none⟩
        2).out
      = ("Total items: " ++ natRepr [Json.int 1, Json.int 2, Json.int 3].length)
          :: (chunks [Json.int 1, Json.int 2, Json.int 3] 2).enum.map
            (fun p =>
              "Created " ++ chunkFileName p.1 ++ " with " ++ natRepr p.2.length ++ " items") ∧
    (∀ j (hj : j < (chunks [Json.int 1, Json.int 2, Json.int 3] 2).length),
      (split_prompts_gen
          ⟨fun p => if p = "data/prompts.json" then some "[1, 2, 3]" else none, fun _ => none⟩
          2).env.fs (chunkFileName j)
        = some (dumps (Json.arr ((chunks [Json.int 1, Json.int 2, Json.int 3] 2).get ⟨j, hj⟩)))) ∧
    (∀ p, (∀ j, j < (chunks [Json.int 1, Json.int 2, Json.int 3] 2).length →
        p ≠ chunkFileName j) →
      (split_prompts_gen
          ⟨fun p => if p = "data/prompts.json" then some "[1, 2, 3]" else none, fun _ => none⟩
          2).env.fs p
        = (⟨fun p => if p = "data/prompts.json" then some "[1, 2, 3]" else none,
            fun _ => none⟩ : Env).fs p)) :=
  split_prompts_files_and_output
    ⟨fun p => if p = "data/prompts.json" then some "[1, 2, 3]" else none, fun _ => none⟩
    "[1, 2, 3]" [Json.int 1, Json.int 2, Json.int 3] 2 (by decide)
    (List.cons_ne_nil _ _) rfl rfl (fun p => rfl)

/-- C7: running `split_prompts` twice on the same unchanged Dataset (with
writable output paths) is idempotent: the second run finishes without an
exception, prints the same lines, and leaves the file system exactly as
the first run left it (it overwrites the same artifact names with
identical content). -/
theorem split_prompts_idempotent (env : Env) (content : String) (xs : List Json) (k : Nat)
    (hk : 0 < k)
    (hfile : env.fs "data/prompts.json" = some content)
    (hparse : parseJson content = some (Json.arr xs))
    (hwr : ∀ p, env.writeErr p = none) :
    (split_prompts_gen (split_prompts_gen env k).env k).out = (split_prompts_gen env k).out ∧
    (split_prompts_gen (split_prompts_gen env k).env k).env.fs
      = (split_prompts_gen env k).env.fs ∧
    (split_prompts_gen (split_prompts_gen env k).env k).exc = none := by
  obtain ⟨hexc1, hout1, hwr1, hfs1, hframe1⟩ := writeChunks_ok (chunks xs k) env 0 hwr
  have heq1 := @split_gen_eq env xs k content hfile hparse
  have hfile1 : (writeChunks env 0 ((chunks xs k).map Json.arr)).env.fs "data/prompts.json"
      = some content := by
    rw [hframe1 "data/prompts.json"
      (fun j hj => by rw [Nat.zero_add]; exact (chunkFileName_ne_prompts j).symm)]
    exact hfile
  have hwr1b : ∀ p, (writeChunks env 0 ((chunks xs k).map Json.arr)).env.writeErr p = none := by
    intro p
    rw [hwr1]
    exact hwr p
  obtain ⟨hexc2, hout2, hwr2, hfs2, hframe2⟩ :=
    writeChunks_ok (chunks xs k) (writeChunks env 0 ((chunks xs k).map Json.arr)).env 0 hwr1b
  have heq2 := @split_gen_eq (writeChunks env 0 ((chunks xs k).map Json.arr)).env xs k content
    hfile1 hparse
  rw [heq1, heq2]
  refine ⟨?_, ?_, hexc2⟩
  · show ("Total items: " ++ natRepr xs.length)
        :: (writeChunks (writeChunks env 0 ((chunks xs k).map Json.arr)).env 0
          ((chunks xs k).map Json.arr)).out
      = ("Total items: " ++ natRepr xs.length)
        :: (writeChunks env 0 ((chunks xs k).map Json.arr)).out
    rw [hout1, hout2]
  · funext p
    by_cases hex : ∃ j, j < (chunks xs k).length ∧ p = chunkFileName j
    · obtain ⟨j, hj, hp⟩ := hex
      subst hp
      have h1 := hfs1 j hj
      have h2 := hfs2 j hj
      rw [Nat.zero_add] at h1 h2
      show (writeChunks (writeChunks env 0 ((chunks xs k).map Json.arr)).env 0
          ((chunks xs k).map Json.arr)).env.fs (chunkFileName j)
        = (writeChunks env 0 ((chunks xs k).map Json.arr)).env.fs (chunkFileName j)
      rw [h1, h2]
    · have hne2 : ∀ j, j < (chunks xs k).length → p ≠ chunkFileName (0 + j) := by
        intro j hj hcontra
        rw [Nat.zero_add] at hcontra
        exact hex ⟨j, hj, hcontra⟩
      exact hframe2 p hne2

theorem split_prompts_idempotent_witness :
    ((split_prompts_gen
        (split_prompts_gen
          ⟨fun p => if p = "data/prompts.json" then some "[1, 2, 3]" else none, fun _ => none⟩
          2).env 2).out
      = (split_prompts_gen
          ⟨fun p => if p = "data/prompts.json" then some "[1, 2, 3]" else none, fun _ => none⟩
          2).out ∧
    (split_prompts_gen
        (split_prompts_gen
          ⟨fun p => if p = "data/prompts.json" then some "[1, 2, 3]" else none, fun _ => none⟩
          2).env 2).env.fs
      = (split_prompts_gen
          ⟨fun p => if p = "data/prompts.json" then some "[1, 2, 3]" else none, fun _ => none⟩
          2).env.fs ∧
    (split_prompts_gen
        (split_prompts_gen
          ⟨fun p => if p = "data/prompts.json" then some "[1, 2, 3]" else none, fun _ => none⟩
          2).env 2).exc = none) :=
  split_prompts_idempotent
    ⟨fun p => if p = "data/prompts.json" then some "[1, 2, 3]" else none, fun _ => none⟩
    "[1, 2, 3]" [Json.int 1, Json.int 2, Json.int 3] 2 (by decide) rfl rfl (fun p => rfl)

/-- C8: `extract_batch` has no observable side effect besides its standard
output: the environment (the whole file system and the write-failure map)
it returns is exactly the one it was given. -/
theorem extract_batch_no_side_effects (env : Env) (start count : Int) :
    (extract_batch env start count).1 = env ∧
    (extract_batch env start count).1.fs = env.fs :=
  ⟨rfl, rfl⟩

/-- C9: when the source file holds well-formed JSON whose top-level value is
an object, number, boolean or null (anything Python cannot slice),
`extract_batch` prints a single `Error:` diagnostic line and returns
normally, printing no JSON output. -/
theorem extract_batch_nonlist_error (env : Env) (content : String) (v : Json)
    (start count : Int)
    (hfile : env.fs "data/prompts.json" = some content)
    (hparse : parseJson content = some v)
    (hv : v = Json.null ∨ (∃ b, v = Json.bool b) ∨ (∃ n, v = Json.int n)
      ∨ (∃ kvs, v = Json.obj kvs)) :
    ∃ m, extract_batch env start count = (env, ["Error: " ++ m]) := by
  have hro : readPrompts env = .ok v := readPrompts_ok hfile hparse
  rcases hv with h | ⟨b, h⟩ | ⟨n, h⟩ | ⟨kvs, h⟩ <;> subst h
  · exact ⟨"NoneType object is not subscriptable",
      @extract_batch_of_body_err env start count
        (.typeError "NoneType object is not subscriptable") (by rw [extract_body, hro]; rfl)⟩
  · exact ⟨"bool object is not subscriptable",
      @extract_batch_of_body_err env start count
        (.typeError "bool object is not subscriptable") (by rw [extract_body, hro]; rfl)⟩
  · exact ⟨"int object is not subscriptable",
      @extract_batch_of_body_err env start count
        (.typeError "int object is not subscriptable") (by rw [extract_body, hro]; rfl)⟩
  · exact ⟨"unhashable type: slice",
      @extract_batch_of_body_err env start count
        (.typeError "unhashable type: slice") (by rw [extract_body, hro]; rfl)⟩

theorem extract_batch_nonlist_error_witness :
    ∃ m, extract_batch
        ⟨fun p => if p = "data/prompts.json" then some "{}" else none, fun _ => none⟩ 30 50
      = (⟨fun p => if p = "data/prompts.json" then some "{}" else none, fun _ => none⟩,
          ["Error: " ++ m]) :=
  extract_batch_nonlist_error
    ⟨fun p => if p = "data/prompts.json" then some "{}" else none, fun _ => none⟩
    "{}" (Json.obj []) 30 50 rfl rfl (Or.inr (Or.inr (Or.inr ⟨[], rfl⟩)))

/-- C10: for the empty Dataset (source file `[]`), `split_prompts` completes
normally, prints exactly the single line `Total items: 0`, and creates no
artifact at all (the environment is returned unchanged). -/
theorem split_prompts_empty_dataset (env : Env) (content : String)
    (hfile : env.fs "data/prompts.json" = some content)
    (hparse : parseJson content = some (Json.arr [])) :
    split_prompts env = ⟨env, ["Total items: 0"], none⟩ := by
  rw [split_prompts, split_gen_eq hfile hparse]
  rfl

theorem split_prompts_empty_dataset_witness :
    split_prompts ⟨fun p => if p = "data/prompts.json" then some "[]" else none, fun _ => none⟩
      = ⟨⟨fun p => if p = "data/prompts.json" then some "[]" else none, fun _ => none⟩,
          ["Total items: 0"], none⟩ :=
  split_prompts_empty_dataset
    ⟨fun p => if p = "data/prompts.json" then some "[]" else none, fun _ => none⟩
    "[]" rfl rfl

end TopBanana
